import Mathlib

/-!
Verification of the term-extraction and weighted-matching engine of the
AI resume / job-description analyzer (src/app.py), via a shallow embedding.

Strings are modelled as lists of characters (`Str`).  Python floats are
modelled as exact rationals.  External collaborators (the spaCy annotator,
the rapidfuzz similarity function, the NLTK stopword list and the on-disk
configuration files) are parameters of the embedded functions, exactly as
the specification treats them: the engine consumes them as capabilities.
-/

/-- Strings of the analyzed program, modelled as lists of characters. -/
abbrev Str := List Char

/-- Python whitespace characters recognised by str.strip (ASCII model;
the data handled by the program is ASCII). -/
def isPySpace (c : Char) : Bool :=
  c = ' ' || c = '\t' || c = '\n' || c = '\r' || c = Char.ofNat 11 || c = Char.ofNat 12

/-- ASCII uppercase letter, the class [A-Z] of the acronym pattern. -/
def isUpperAZ (c : Char) : Bool := 'A' ≤ c && c ≤ 'Z'

/-- ASCII lowercase letter. -/
def isLowerAZ (c : Char) : Bool := 'a' ≤ c && c ≤ 'z'

/-- ASCII digit. -/
def isDigitC (c : Char) : Bool := '0' ≤ c && c ≤ '9'

/-- The regex class [A-Za-z0-9]. -/
def isAlnumC (c : Char) : Bool := isUpperAZ c || isLowerAZ c || isDigitC c

/-- ASCII model of Python str.lower on one character, written as an
explicit table so that every fact about it is provable by case analysis. -/
def lowerChar (c : Char) : Char :=
  if c = 'A' then 'a' else if c = 'B' then 'b' else if c = 'C' then 'c'
  else if c = 'D' then 'd' else if c = 'E' then 'e' else if c = 'F' then 'f'
  else if c = 'G' then 'g' else if c = 'H' then 'h' else if c = 'I' then 'i'
  else if c = 'J' then 'j' else if c = 'K' then 'k' else if c = 'L' then 'l'
  else if c = 'M' then 'm' else if c = 'N' then 'n' else if c = 'O' then 'o'
  else if c = 'P' then 'p' else if c = 'Q' then 'q' else if c = 'R' then 'r'
  else if c = 'S' then 's' else if c = 'T' then 't' else if c = 'U' then 'u'
  else if c = 'V' then 'v' else if c = 'W' then 'w' else if c = 'X' then 'x'
  else if c = 'Y' then 'y' else if c = 'Z' then 'z' else c

/-- Python str.lower (ASCII model). -/
def pyLower (s : Str) : Str := s.map lowerChar

/-- Python str.strip: remove leading and trailing whitespace. -/
def pyStrip (s : Str) : Str :=
  ((s.dropWhile isPySpace).reverse.dropWhile isPySpace).reverse

/-- First-match lookup in an association list keyed by strings; models a
Python dict lookup (a dict built from literals or json has unique keys). -/
def lookupA {α : Type} : List (Str × α) → Str → Option α
  | [], _ => none
  | (k, v) :: rest, key => if key = k then some v else lookupA rest key

/-- A synonym table: variant phrase to canonical phrase, many-to-one. -/
abbrev SynMap := List (Str × Str)

/-- BUILTIN_SYNONYMS from src/app.py. -/
def builtinSynonyms : SynMap :=
  [ ("quality assurance".data, "qa".data)
  , ("qa testing".data, "qa".data)
  , ("manual software qa testing".data, "qa".data)
  , ("application programming interface".data, "api".data)
  , ("web service".data, "api".data)
  , ("soap api".data, "api".data)
  , ("rest apis".data, "rest api".data)
  , ("db".data, "database".data)
  , ("data store".data, "database".data)
  , ("sql database".data, "database".data)
  , ("postgres".data, "postgresql".data)
  , ("postgre sql".data, "postgresql".data)
  , ("js".data, "javascript".data)
  , ("customer support".data, "customer service".data)
  , ("customers support".data, "customer service".data)
  , ("end user".data, "customer".data)
  , ("client".data, "customer".data)
  , ("stakeholder".data, "customer".data)
  , ("docs".data, "documentation".data)
  , ("manual".data, "documentation".data)
  , ("guides".data, "documentation".data)
  , ("technical writing".data, "documentation".data)
  , ("connect".data, "integration".data)
  , ("api link".data, "integration".data)
  , ("system integration".data, "integration".data)
  , ("data transformation".data, "etl".data)
  , ("data pipeline".data, "etl".data)
  , ("radio frequency".data, "rf".data)
  , ("radio-frequency".data, "rf".data)
  , ("v-swr".data, "vswr".data)
  , ("microwave link".data, "microwave backhaul".data) ]

/-- The merge SYNONYMS_MAP = dict-union of base and user tables, user entries
winning on key collision; with first-match lookup this is user ++ base. -/
def mergeSynonyms (base user : SynMap) : SynMap := user ++ base

/-- The merged map the program loads when the data files hold the built-in
seed table and an empty user table (the state _ensure_files creates). -/
def mergedSynonyms : SynMap := mergeSynonyms builtinSynonyms []

/-- Raw dict get with the key itself as default: SYNONYMS_MAP.get(t, t). -/
def synGet (M : SynMap) (t : Str) : Str := (lookupA M t).getD t

/-- normalize_term from src/app.py: lower-case, strip, then look up in the
synonym map with the input as default. -/
def normalize_term (M : SynMap) (t : Str) : Str :=
  synGet M (pyStrip (pyLower t))

/-- Python str.endswith applied to the single character s. -/
def lastIsS (s : Str) : Bool :=
  match s.reverse with
  | [] => false
  | c :: _ => c = 's'

/-- Python str.rstrip applied with the single character s: removes every
trailing occurrence of the character. -/
def rstripS (s : Str) : Str :=
  (s.reverse.dropWhile (fun c => c = 's')).reverse

/-- expand_synonyms from src/app.py: the canonical form, every variant key
of the map whose canonical equals it (reverse lookup), and the naive
plural or singular toggle, each re-normalized. -/
def expand_synonyms (M : SynMap) (term : Str) : List Str :=
  let base := normalize_term M term
  let revKeys := (M.filter (fun kv => kv.2 = base)).map (fun kv => kv.1)
  let toggled := if lastIsS base then rstripS base else base ++ ['s']
  ((base :: revKeys) ++ [toggled]).map (normalize_term M)

/-- The importance tiers of CATEGORY_HINTS and the scoring config.  The
source keys its tables by the strings critical, important and nice; the
set of categories is closed, so it is modelled as an enumeration. -/
inductive Tier where
  | critical
  | important
  | nice
deriving DecidableEq, Repr

/-- CATEGORY_HINTS from src/app.py. -/
def categoryHints : List (Str × Tier) :=
  [ ("qa".data, .critical)
  , ("manual testing".data, .critical)
  , ("test case".data, .critical)
  , ("rest api".data, .critical)
  , ("api".data, .critical)
  , ("http status".data, .critical)
  , ("javascript".data, .critical)
  , ("integration".data, .critical)
  , ("data integration".data, .critical)
  , ("etl".data, .critical)
  , ("sql".data, .critical)
  , ("postgresql".data, .critical)
  , ("documentation".data, .important)
  , ("customer service".data, .important)
  , ("troubleshooting".data, .important)
  , ("debugging".data, .important)
  , ("salesforce".data, .important)
  , ("dhis2".data, .important)
  , ("commcare".data, .important)
  , ("kobo toolbox".data, .important)
  , ("openmrs".data, .important)
  , ("remote".data, .important)
  , ("remote-first".data, .important) ]

/-- Does the pattern occur at the head of the string. -/
def beginsWith : Str → Str → Bool
  | [], _ => true
  | _ :: _, [] => false
  | c :: p, d :: s => c = d && beginsWith p s

/-- Python substring test: pat in s. -/
def containsSub (pat : Str) : Str → Bool
  | [] => pat.isEmpty
  | c :: rest => beginsWith pat (c :: rest) || containsSub pat rest

/-- The critical-indicating substrings of categorize_term. -/
def criticalSubs : List Str :=
  ["qa".data, "rest api".data, "api".data, "http status".data,
   "javascript".data, "etl".data, "integration".data, "sql".data,
   "postgresql".data, "test case".data]

/-- The important-indicating substrings of categorize_term. -/
def importantSubs : List Str :=
  ["troubleshoot".data, "debug".data, "documentation".data,
   "customer service".data, "salesforce".data, "dhis2".data,
   "commcare".data, "kobo toolbox".data, "openmrs".data, "remote".data]

/-- categorize_term from src/app.py: exact hint lookup, then the
substring heuristics, critical before important, default nice. -/
def categorize_term (M : SynMap) (term : Str) : Tier :=
  let t := normalize_term M term
  match lookupA categoryHints t with
  | some c => c
  | none =>
    if criticalSubs.any (fun k => containsSub k t) then .critical
    else if importantSubs.any (fun k => containsSub k t) then .important
    else .nice

/-- The resolved scoring configuration: one weight (a Python float,
modelled as a rational) and one fuzzy threshold (a Python int) per tier. -/
structure ScoringConfig where
  wCritical : ℚ
  wImportant : ℚ
  wNice : ℚ
  tCritical : ℤ
  tImportant : ℤ
  tNice : ℤ
deriving DecidableEq, Repr

/-- Weight of a tier under a resolved configuration. -/
def ScoringConfig.weightOf : ScoringConfig → Tier → ℚ
  | c, .critical => c.wCritical
  | c, .important => c.wImportant
  | c, .nice => c.wNice

/-- Fuzzy threshold of a tier under a resolved configuration. -/
def ScoringConfig.thresholdOf : ScoringConfig → Tier → ℤ
  | c, .critical => c.tCritical
  | c, .important => c.tImportant
  | c, .nice => c.tNice

/-- The built-in fallback configuration of get_scoring_config:
weights 3.0 / 2.0 / 1.0 and thresholds 88 / 82 / 75. -/
def builtinScoringConfig : ScoringConfig := ⟨3, 2, 1, 88, 82, 75⟩

/-- Start-character class of TOKEN_RE. -/
def isTokStart (c : Char) : Bool := isAlnumC c

/-- Continuation class of TOKEN_RE: alphanumeric, hyphen, slash or space. -/
def isTokCont (c : Char) : Bool := isAlnumC c || c = '-' || c = '/' || c = ' '

/-- Scanner for re.findall with TOKEN_RE: at each position a match is one
start character followed greedily by 1 to 40 continuation characters;
scanning resumes after a match, or one character on (fuel = input length,
which the recursion never exhausts). -/
def findTokensFuel : Nat → Str → List Str
  | _, [] => []
  | 0, _ => []
  | fuel + 1, c :: rest =>
    if isTokStart c then
      let run := (rest.takeWhile isTokCont).take 40
      if run.isEmpty then findTokensFuel fuel rest
      else (c :: run) :: findTokensFuel fuel (rest.drop run.length)
    else findTokensFuel fuel rest

/-- All TOKEN_RE matches of a string. -/
def findTokens (s : Str) : List Str := findTokensFuel s.length s

/-- The backup token set of the matcher:
set(TOKEN_RE.findall(resume_text.lower())). -/
def tokensOfText (text : Str) : List Str := findTokens (pyLower text)

/-- The external fuzzy similarity capability (rapidfuzz
fuzz.partial_ratio): a score on the 0 to 100 scale for a pair of strings,
modelled as an abstract rational-valued function. -/
abbrev RatioFn := Str → Str → ℚ

/-- any_exact_or_fuzzy_match from src/app.py, evaluated over an abstract
similarity function: exact membership, then synonym variants, then a
fuzzy pass over the extracted resume terms, then a fuzzy pass over
tokens of the lower-cased raw resume text, else matched = false with
method string no. -/
def any_exact_or_fuzzy_match (M : SynMap) (r : RatioFn) (term : Str)
    (resume_terms : List Str) (resume_text : Str) (threshold : ℤ) :
    Bool × Str :=
  let base := normalize_term M term
  let syns := expand_synonyms M base
  if base ∈ resume_terms then (true, "exact".data)
  else if ∃ s ∈ syns, s ∈ resume_terms then (true, "synonym".data)
  else if ∃ rt ∈ resume_terms,
      (threshold : ℚ) ≤ r base rt ∨ ∃ s ∈ syns, (threshold : ℚ) ≤ r s rt then
    (true, "fuzzy-terms".data)
  else if ∃ tok ∈ tokensOfText resume_text,
      (threshold : ℚ) ≤ r base tok ∨ ∃ s ∈ syns, (threshold : ℚ) ≤ r s tok then
    (true, "fuzzy-text".data)
  else (false, "no".data)

/-- Round-half-to-even of a rational to an integer, the tie-breaking rule
of the Python round builtin (floats are modelled as exact rationals;
binary representation artifacts are outside the model). -/
def halfEvenRound (x : ℚ) : ℤ :=
  if x - ⌊x⌋ = 1 / 2 then (if ⌊x⌋ % 2 = 0 then ⌊x⌋ else ⌊x⌋ + 1)
  else round x

/-- Python round(x, 2). -/
def round2 (x : ℚ) : ℚ := (halfEvenRound (x * 100) : ℚ) / 100

/-- Python equality between a bool and a string: values of different
types, never equal, so the comparison is constantly False.  The scorer
writes the breakdown Method field as: method if matched != no else dash,
where matched is the boolean flag. -/
def pyBoolEqStr (_ : Bool) (_ : Str) : Bool := false

/-- One row of the per-term breakdown emitted by score_weighted. -/
structure Item where
  term : Str
  category : Tier
  matchedMark : Str
  method : Str
  weight : ℚ
  earned : ℚ
deriving DecidableEq, Repr

/-- The body of the score_weighted loop for one JD term: categorize,
match, and build the breakdown row plus the two accumulator increments. -/
def score_row (M : SynMap) (cfg : ScoringConfig) (r : RatioFn)
    (resume_terms : List Str) (resume_text : Str) (term : Str) :
    Item × ℚ × ℚ :=
  let category := categorize_term M term
  let weight := cfg.weightOf category
  let threshold := cfg.thresholdOf category
  let res := any_exact_or_fuzzy_match M r term resume_terms resume_text threshold
  let matched := res.1
  let method := res.2
  let earned := if matched then weight else 0
  (⟨term, category,
    (if matched then "✅".data else "❌".data),
    (if pyBoolEqStr matched ("no".data) then "-".data else method),
    round2 weight, round2 earned⟩,
   weight, earned)

/-- The score_weighted loop over the JD terms, returning the breakdown
rows and the accumulated total_possible and total_earned.  The source
iterates sorted(jd_terms); the list argument stands for the JD TermSet in
that iteration order, and every property proved below is invariant under
the order. -/
def score_rows (M : SynMap) (cfg : ScoringConfig) (r : RatioFn)
    (resume_terms : List Str) (resume_text : Str) :
    List Str → List Item × ℚ × ℚ
  | [] => ([], 0, 0)
  | term :: rest =>
    let row := score_row M cfg r resume_terms resume_text term
    let acc := score_rows M cfg r resume_terms resume_text rest
    (row.1 :: acc.1, row.2.1 + acc.2.1, row.2.2 + acc.2.2)

/-- score_weighted from src/app.py: the rounded percentage (0 when
total_possible is not positive), the rows, total_possible, total_earned. -/
def score_weighted (M : SynMap) (cfg : ScoringConfig) (r : RatioFn)
    (jd_terms resume_terms : List Str) (resume_text : Str) :
    ℚ × List Item × ℚ × ℚ :=
  let acc := score_rows M cfg r resume_terms resume_text jd_terms
  (if 0 < acc.2.1 then round2 (acc.2.2 / acc.2.1 * 100) else 0,
   acc.1, acc.2.1, acc.2.2)

/-- The simple (unweighted) score of src/app.py: the JD terms literally
present in the resume term set, as a rounded percentage of the JD terms,
and 0 when the JD term set is empty.  The lists stand for the two
canonicalized TermSets. -/
def simple_score (jd_terms resume_terms : List Str) : ℚ :=
  let simple_matched := jd_terms.filter (fun t => t ∈ resume_terms)
  if jd_terms.isEmpty then 0
  else round2 ((simple_matched.length : ℚ) / (jd_terms.length : ℚ) * 100)

/-- A loaded YAML/JSON configuration value, as yaml.safe_load produces it:
a numeric scalar (int or float, modelled as one rational), a string
scalar, a mapping, or null.  Exotic scalars irrelevant to the config
surface (lists, booleans) are not needed by any claim. -/
inductive YVal where
  | num (q : ℚ)
  | str (s : Str)
  | dict (entries : List (Str × YVal))
  | ynull

/-- Value of an unsigned decimal digit string. -/
def digitsVal (l : Str) : ℕ :=
  l.foldl (fun a c => a * 10 + (c.toNat - 48)) 0

/-- Parse an unsigned Python float literal: digits, optionally with a
single decimal point (covering the numeric strings the config surface
can carry; exponent, inf and nan spellings are outside the model). -/
def parseUnsignedFloat (s : Str) : Option ℚ :=
  let ip := s.takeWhile isDigitC
  let rest := s.drop ip.length
  match rest with
  | [] => if ip.isEmpty then none else some (digitsVal ip : ℚ)
  | '.' :: fp =>
    if fp.all isDigitC ∧ ¬(ip.isEmpty ∧ fp.isEmpty) then
      some ((digitsVal ip : ℚ) + (digitsVal fp : ℚ) / ((10 : ℚ) ^ fp.length))
    else none
  | _ => none

/-- Python float(s) on a string: strip whitespace, optional sign, then an
unsigned float literal; anything else raises ValueError. -/
def parseFloatStr (s : Str) : Option ℚ :=
  let t := pyStrip s
  match t with
  | '-' :: rest => (parseUnsignedFloat rest).map (fun q => -q)
  | '+' :: rest => parseUnsignedFloat rest
  | _ => parseUnsignedFloat t

/-- Python int(s) on a string: strip whitespace, optional sign, digits
only; a decimal point raises ValueError. -/
def parseIntStr (s : Str) : Option ℤ :=
  let t := pyStrip s
  let core : Str → Option ℤ := fun d =>
    if d.isEmpty ∨ ¬(d.all isDigitC) then none else some (digitsVal d : ℤ)
  match t with
  | '-' :: rest => (core rest).map (fun n => -n)
  | '+' :: rest => core rest
  | _ => core t

/-- Truncation toward zero, the behaviour of Python int() on a float. -/
def ratTrunc (q : ℚ) : ℤ := if 0 ≤ q then ⌊q⌋ else -⌊-q⌋

/-- Python float(x): numbers pass through, numeric strings parse,
everything else raises (the error carries the exception name). -/
def pyFloat : YVal → Except Str ℚ
  | .num q => .ok q
  | .str s =>
    match parseFloatStr s with
    | some q => .ok q
    | none => .error "ValueError".data
  | _ => .error "TypeError".data

/-- Python int(x): numbers truncate toward zero, integer strings parse,
everything else raises. -/
def pyInt : YVal → Except Str ℤ
  | .num q => .ok (ratTrunc q)
  | .str s =>
    match parseIntStr s with
    | some n => .ok n
    | none => .error "ValueError".data
  | _ => .error "TypeError".data

/-- Python x.get(key, default): defined on mappings only; on any other
loaded value the attribute access raises AttributeError. -/
def pyGet (v : YVal) (key : Str) (dflt : YVal) : Except Str YVal :=
  match v with
  | .dict entries => .ok ((lookupA entries key).getD dflt)
  | _ => .error "AttributeError".data

/-- get_scoring_config from src/app.py, over the loaded weights
configuration value: reads the weights and thresholds sub-mappings (empty
mapping when the key is absent), then coerces each tier field with
float() or int(), falling back to the built-in constant only when the
field is absent.  An exception raised by a coercion propagates. -/
def get_scoring_config (cfg : YVal) : Except Str ScoringConfig :=
  (pyGet cfg "weights".data (.dict [])).bind fun w =>
  (pyGet cfg "thresholds".data (.dict [])).bind fun t =>
  (pyGet w "critical".data (.num 3)).bind fun vwc =>
  (pyFloat vwc).bind fun wc =>
  (pyGet w "important".data (.num 2)).bind fun vwi =>
  (pyFloat vwi).bind fun wi =>
  (pyGet w "nice".data (.num 1)).bind fun vwn =>
  (pyFloat vwn).bind fun wn =>
  (pyGet t "critical".data (.num 88)).bind fun vtc =>
  (pyInt vtc).bind fun tc =>
  (pyGet t "important".data (.num 82)).bind fun vti =>
  (pyInt vti).bind fun ti =>
  (pyGet t "nice".data (.num 75)).bind fun vtn =>
  (pyInt vtn).bind fun tn =>
  .ok ⟨wc, wi, wn, tc, ti, tn⟩

/-- One run of re.sub with the pattern of two-or-more whitespace
characters replaced by a single space: scan with fuel = input length. -/
def collapseRunsFuel : Nat → Str → Str
  | _, [] => []
  | 0, s => s
  | fuel + 1, c :: rest =>
    if isPySpace c then
      let run := rest.takeWhile isPySpace
      if run.isEmpty then c :: collapseRunsFuel fuel rest
      else ' ' :: collapseRunsFuel fuel (rest.drop run.length)
    else c :: collapseRunsFuel fuel rest

/-- re.sub of two-or-more whitespace runs by one space, as used at lines
259, 322 of src/app.py. -/
def collapseRuns (s : Str) : Str := collapseRunsFuel s.length s

/-- Python str.replace for a non-empty pattern, scanning left to right and
skipping past each replacement (fuel = input length, never exhausted). -/
def replaceFuel (pat rep : Str) : Nat → Str → Str
  | _, [] => []
  | 0, s => s
  | fuel + 1, c :: rest =>
    if beginsWith pat (c :: rest) then
      rep ++ replaceFuel pat rep fuel ((c :: rest).drop pat.length)
    else c :: replaceFuel pat rep fuel rest

/-- Python str.replace(pat, rep): for the empty pattern Python inserts the
replacement at every boundary; otherwise scan and replace left to right. -/
def pyReplace (pat rep s : Str) : Str :=
  if pat.isEmpty then rep ++ s.foldr (fun c acc => c :: (rep ++ acc)) []
  else replaceFuel pat rep s.length s

/-- The stop-phrase scrub at the top of extract_terms: each phrase of the
loaded stop-phrase set is replaced by a space in the lower-cased text.
A Python set iterates in an unspecified order; the list order stands for
it, and no property proved below depends on the order. -/
def scrub (stopPhrases : List Str) (s : Str) : Str :=
  stopPhrases.foldl (fun acc p => pyReplace p [' '] acc) s

/-- BUILTIN_STOP from src/app.py (already lower-case, as the program
requires: STOP_PHRASES = set(map(str.lower, ...))). -/
def builtinStopPhrases : List Str :=
  ["3 5 year".data, "3-5 years".data, "3 to 5 years".data, "bonus".data,
   "audience".data, "new".data, "lot".data, "high level".data,
   "fully computer literate".data, "driving license".data,
   "availability to travel".data, "security clearance".data,
   "standby rotation".data, "job description".data,
   "responsibilities include".data, "preferred qualifications".data,
   "nice to have".data, "about the company".data, "our mission".data,
   "perks and benefits".data, "how to apply".data, "contact us".data,
   "location".data, "requirements".data, "benefits".data]

/-- ACRONYM_PATTERN.fullmatch: 2 to 6 uppercase ASCII letters (the word
boundaries of the pattern hold trivially under fullmatch). -/
def isAcro (s : Str) : Bool :=
  decide (2 ≤ s.length) && decide (s.length ≤ 6) && s.all isUpperAZ

/-- Separator class of CODEY_PATTERN. -/
def isCodeySep (c : Char) : Bool := c = '-' || c = '_' || c = '/'

/-- CODEY_PATTERN.fullmatch: alphanumeric runs joined by single hyphen,
underscore or slash separators, with at least one separator.  Stated as
the equivalent character-level condition: every character is alphanumeric
or a separator, the first and last are alphanumeric, no two separators
are adjacent, and a separator occurs. -/
def isCodey (s : Str) : Bool :=
  match s with
  | [] => false
  | c :: rest =>
    isAlnumC c && (c :: rest).all (fun d => isAlnumC d || isCodeySep d)
      && (match (c :: rest).reverse with
          | [] => false
          | d :: _ => isAlnumC d)
      && ((c :: rest).zip rest).all (fun p => !(isCodeySep p.1 && isCodeySep p.2))
      && (c :: rest).any isCodeySep

/-- One token of the external linguistic annotator, with the attributes
the extractor consumes: surface text, lemma, coarse POS tag, named-entity
category, and the whitespace / punctuation / stopword flags. -/
structure Tok where
  text : Str
  lemmaForm : Str
  pos : Str
  entType : Str
  isSpace : Bool
  isPunct : Bool
  isStop : Bool
deriving DecidableEq, Repr

/-- An annotated document: the token sequence and the noun-phrase spans. -/
structure NlpDoc where
  toks : List Tok
  chunks : List (List Tok)
deriving DecidableEq, Repr

/-- ALLOWED_VERBS from src/app.py. -/
def allowedVerbs : List Str :=
  ["test".data, "testing".data, "troubleshoot".data, "troubleshooting".data,
   "debug".data, "debugging".data, "integrate".data, "integration".data,
   "document".data, "documentation".data, "support".data,
   "analyze".data, "analysis".data]

/-- The entity categories excluded by the single-token loop. -/
def blockedEnts : List Str :=
  ["DATE".data, "TIME".data, "MONEY".data, "ORDINAL".data, "CARDINAL".data]

/-- Python endswith for one character e. -/
def lastIsE (s : Str) : Bool :=
  match s.reverse with
  | [] => false
  | c :: _ => c = 'e'

/-- The terms contributed by one token of the single-token loop of
extract_terms: skip whitespace, punctuation and blocked entities; keep
acronym and code-like surfaces verbatim (lower-cased); keep noun lemmas
through the synonym table; keep allow-listed verb lemmas together with
their derived ing-form. -/
def tokenTerms (M : SynMap) (stopWords stopPhrases : List Str) (tok : Tok) :
    List Str :=
  if tok.isSpace || tok.isPunct then []
  else if tok.entType ∈ blockedEnts then []
  else if isAcro tok.text then [pyLower tok.text]
  else if isCodey tok.text then [pyLower tok.text]
  else if tok.pos = "NOUN".data ∨ tok.pos = "PROPN".data then
    let lem := pyStrip (pyLower tok.lemmaForm)
    if ¬lem.isEmpty ∧ lem ∉ stopWords ∧ lem ∉ stopPhrases then
      [synGet M lem]
    else []
  else if tok.pos = "VERB".data then
    let lem := pyStrip (pyLower tok.lemmaForm)
    if lem ∈ allowedVerbs ∧ lem ∉ stopPhrases then
      [lem,
       if lastIsE lem then lem.dropLast ++ "ing".data
       else lem ++ "ing".data]
    else []
  else []

/-- The helper _normalize_phrase of src/app.py: lemmatize and filter the
words of a chunk, join with single spaces, pass the joined phrase through
the raw synonym table, and collapse internal whitespace runs; the empty
string when no lemma survives. -/
def normalizePhrase (M : SynMap) (stopWords stopPhrases : List Str)
    (words : List Tok) : Str :=
  let lemmas := words.filterMap (fun t =>
    if t.isSpace || t.isPunct then none
    else
      let l := pyStrip (pyLower t.lemmaForm)
      if ¬l.isEmpty ∧ l ∉ stopWords ∧ l ∉ stopPhrases then some l else none)
  if lemmas.isEmpty then []
  else collapseRuns (synGet M (List.intercalate [' '] lemmas))

/-- The terms contributed by one noun chunk: drop whitespace and
punctuation tokens, strip leading and trailing stopword tokens, keep
chunks of 1 to 4 remaining words, and normalize them into a phrase. -/
def chunkTerm (M : SynMap) (stopWords stopPhrases : List Str)
    (chunk : List Tok) : List Str :=
  let words := chunk.filter (fun t => !t.isSpace && !t.isPunct)
  let edge := fun (t : Tok) => t.isStop || t.isSpace || t.isPunct
  let words := words.dropWhile edge
  let words := (words.reverse.dropWhile edge).reverse
  if words.isEmpty then []
  else if 1 ≤ words.length ∧ words.length ≤ 4 then
    let phrase := normalizePhrase M stopWords stopPhrases words
    if phrase.isEmpty then [] else [phrase]
  else []

/-- extract_terms from src/app.py, over an abstract annotator: scrub the
stop phrases from the lower-cased text, annotate it, collect single-token
terms and noun-chunk phrases, then apply the final normalization pass,
which re-applies the synonym table, strips and collapses whitespace, and
silently drops empty or stop-phrase results. -/
def extract_terms (M : SynMap) (stopWords stopPhrases : List Str)
    (annotate : Str → NlpDoc) (text : Str) : List Str :=
  let low := scrub stopPhrases (pyLower text)
  let d := annotate low
  let terms :=
    (d.toks.map (tokenTerms M stopWords stopPhrases)).flatten ++
    (d.chunks.map (chunkTerm M stopWords stopPhrases)).flatten
  terms.filterMap (fun t =>
    let t2 := synGet M t
    let t2 := collapseRuns (pyStrip t2)
    if t2.isEmpty ∨ t2 ∈ stopPhrases then none else some t2)

/-- A character equal to none of the uppercase letters is fixed by
lowerChar. -/
theorem lowerChar_eq_self (c : Char)
    (hA : c ≠ 'A') (hB : c ≠ 'B') (hC : c ≠ 'C') (hD : c ≠ 'D') (hE : c ≠
    'E') (hF : c ≠ 'F') (hG : c ≠ 'G') (hH : c ≠ 'H') (hI : c ≠ 'I') (hJ : c
    ≠ 'J') (hK : c ≠ 'K') (hL : c ≠ 'L') (hM : c ≠ 'M') (hN : c ≠ 'N') (hO :
    c ≠ 'O') (hP : c ≠ 'P') (hQ : c ≠ 'Q') (hR : c ≠ 'R') (hS : c ≠ 'S') (hT
    : c ≠ 'T') (hU : c ≠ 'U') (hV : c ≠ 'V') (hW : c ≠ 'W') (hX : c ≠ 'X')
    (hY : c ≠ 'Y') (hZ : c ≠ 'Z')
    : lowerChar c = c := by
  unfold lowerChar
  rw [if_neg hA, if_neg hB, if_neg hC, if_neg hD, if_neg hE, if_neg hF, if_neg hG, if_neg hH, if_neg hI, if_neg hJ, if_neg hK, if_neg hL, if_neg hM, if_neg hN, if_neg hO, if_neg hP, if_neg hQ, if_neg hR, if_neg hS, if_neg hT, if_neg hU, if_neg hV, if_neg hW, if_neg hX, if_neg hY, if_neg hZ]

/-- Lower-casing is idempotent on characters. -/
theorem lowerChar_idem (c : Char) : lowerChar (lowerChar c) = lowerChar c := by
  by_cases hA : c = 'A'
  · subst hA; decide
  by_cases hB : c = 'B'
  · subst hB; decide
  by_cases hC : c = 'C'
  · subst hC; decide
  by_cases hD : c = 'D'
  · subst hD; decide
  by_cases hE : c = 'E'
  · subst hE; decide
  by_cases hF : c = 'F'
  · subst hF; decide
  by_cases hG : c = 'G'
  · subst hG; decide
  by_cases hH : c = 'H'
  · subst hH; decide
  by_cases hI : c = 'I'
  · subst hI; decide
  by_cases hJ : c = 'J'
  · subst hJ; decide
  by_cases hK : c = 'K'
  · subst hK; decide
  by_cases hL : c = 'L'
  · subst hL; decide
  by_cases hM : c = 'M'
  · subst hM; decide
  by_cases hN : c = 'N'
  · subst hN; decide
  by_cases hO : c = 'O'
  · subst hO; decide
  by_cases hP : c = 'P'
  · subst hP; decide
  by_cases hQ : c = 'Q'
  · subst hQ; decide
  by_cases hR : c = 'R'
  · subst hR; decide
  by_cases hS : c = 'S'
  · subst hS; decide
  by_cases hT : c = 'T'
  · subst hT; decide
  by_cases hU : c = 'U'
  · subst hU; decide
  by_cases hV : c = 'V'
  · subst hV; decide
  by_cases hW : c = 'W'
  · subst hW; decide
  by_cases hX : c = 'X'
  · subst hX; decide
  by_cases hY : c = 'Y'
  · subst hY; decide
  by_cases hZ : c = 'Z'
  · subst hZ; decide
  rw [lowerChar_eq_self c hA hB hC hD hE hF hG hH hI hJ hK hL hM hN hO hP hQ hR hS hT hU hV hW hX hY hZ, lowerChar_eq_self c hA hB hC hD hE hF hG hH hI hJ hK hL hM hN hO hP hQ hR hS hT hU hV hW hX hY hZ]

/-- Lower-casing preserves whitespace-ness of a character. -/
theorem isPySpace_lowerChar (c : Char) : isPySpace (lowerChar c) = isPySpace c := by
  by_cases hA : c = 'A'
  · subst hA; decide
  by_cases hB : c = 'B'
  · subst hB; decide
  by_cases hC : c = 'C'
  · subst hC; decide
  by_cases hD : c = 'D'
  · subst hD; decide
  by_cases hE : c = 'E'
  · subst hE; decide
  by_cases hF : c = 'F'
  · subst hF; decide
  by_cases hG : c = 'G'
  · subst hG; decide
  by_cases hH : c = 'H'
  · subst hH; decide
  by_cases hI : c = 'I'
  · subst hI; decide
  by_cases hJ : c = 'J'
  · subst hJ; decide
  by_cases hK : c = 'K'
  · subst hK; decide
  by_cases hL : c = 'L'
  · subst hL; decide
  by_cases hM : c = 'M'
  · subst hM; decide
  by_cases hN : c = 'N'
  · subst hN; decide
  by_cases hO : c = 'O'
  · subst hO; decide
  by_cases hP : c = 'P'
  · subst hP; decide
  by_cases hQ : c = 'Q'
  · subst hQ; decide
  by_cases hR : c = 'R'
  · subst hR; decide
  by_cases hS : c = 'S'
  · subst hS; decide
  by_cases hT : c = 'T'
  · subst hT; decide
  by_cases hU : c = 'U'
  · subst hU; decide
  by_cases hV : c = 'V'
  · subst hV; decide
  by_cases hW : c = 'W'
  · subst hW; decide
  by_cases hX : c = 'X'
  · subst hX; decide
  by_cases hY : c = 'Y'
  · subst hY; decide
  by_cases hZ : c = 'Z'
  · subst hZ; decide
  rw [lowerChar_eq_self c hA hB hC hD hE hF hG hH hI hJ hK hL hM hN hO hP hQ hR hS hT hU hV hW hX hY hZ]

/-- Lower-casing a string is idempotent. -/
theorem pyLower_idem (s : Str) : pyLower (pyLower s) = pyLower s := by
  simp only [pyLower, List.map_map]
  exact List.map_congr_left (fun a _ => lowerChar_idem a)

/-- Dropping a prefix of whitespace twice is the same as dropping once. -/
theorem dropWhile_isPySpace_idem (l : Str) :
    (l.dropWhile isPySpace).dropWhile isPySpace = l.dropWhile isPySpace := by
  induction l with
  | nil => rfl
  | cons c rest ih =>
    by_cases h : isPySpace c
    · simp [List.dropWhile_cons, h, ih]
    · simp [List.dropWhile_cons, h]

/-- Lower-casing commutes with stripping. -/
theorem pyLower_pyStrip_comm (s : Str) :
    pyLower (pyStrip s) = pyStrip (pyLower s) := by
  have hfun : (isPySpace ∘ lowerChar) = isPySpace := funext isPySpace_lowerChar
  have hdw : ∀ l : Str,
      (l.map lowerChar).dropWhile isPySpace =
        (l.dropWhile isPySpace).map lowerChar := by
    intro l
    rw [List.dropWhile_map, hfun]
  simp only [pyStrip, pyLower]
  rw [List.map_reverse, ← hdw, List.map_reverse, ← hdw]

/-- Stripping is idempotent. -/
theorem pyStrip_idem (s : Str) : pyStrip (pyStrip s) = pyStrip s := by
  have hhead : ∀ u : Str, u.dropWhile isPySpace = u →
      ((u.reverse.dropWhile isPySpace).reverse).dropWhile isPySpace =
        (u.reverse.dropWhile isPySpace).reverse := by
    intro u hu
    cases hu' : u with
    | nil => simp
    | cons c rest =>
      have hc : isPySpace c = false := by
        by_contra hcb
        have hcb' : isPySpace c = true := by
          cases hx : isPySpace c
          · exact absurd hx hcb
          · rfl
        rw [hu'] at hu
        rw [List.dropWhile_cons_of_pos hcb'] at hu
        have := congrArg List.length hu
        simp at this
        have hle := (List.dropWhile_sublist (l := rest) isPySpace).length_le
        omega
      rw [List.reverse_cons, List.dropWhile_append]
      by_cases hre : (rest.reverse.dropWhile isPySpace).isEmpty
      · simp only [hre, if_pos]
        simp [List.dropWhile_cons, hc]
      · simp only [hre, if_neg, Bool.false_eq_true, not_false_iff]
        rw [List.reverse_append]
        simp [List.dropWhile_cons, hc]
  have hH : (s.dropWhile isPySpace).dropWhile isPySpace = s.dropWhile isPySpace :=
    dropWhile_isPySpace_idem s
  simp only [pyStrip]
  rw [hhead _ hH, List.reverse_reverse, dropWhile_isPySpace_idem]

/-- The canonical key the normalizer computes before the table lookup. -/
def canonStr (s : Str) : Str := pyStrip (pyLower s)

/-- Canonicalization (lower-case then strip) is idempotent. -/
theorem canonStr_idem (s : Str) : canonStr (canonStr s) = canonStr s := by
  unfold canonStr
  rw [pyLower_pyStrip_comm, pyLower_idem, pyStrip_idem]

/-- A successful association-list lookup returns a stored pair. -/
theorem lookupA_mem {α : Type} (M : List (Str × α)) (k : Str) (v : α)
    (h : lookupA M k = some v) : (k, v) ∈ M := by
  induction M with
  | nil => simp [lookupA] at h
  | cons kv rest ih =>
    rcases kv with ⟨k', v'⟩
    by_cases he : k = k'
    · subst he
      simp [lookupA] at h
      simp [h]
    · simp only [lookupA, if_neg he] at h
      exact List.mem_cons_of_mem _ (ih h)

/-- A synonym table is well-formed for idempotence when every canonical
value is itself canonical and is not a variant key of the table. -/
def goodSynMap (M : SynMap) : Bool :=
  M.all (fun kv => decide (canonStr kv.2 = kv.2) && (lookupA M kv.2).isNone)

/-- Normalization is idempotent over any well-formed synonym table. -/
theorem normalize_idem_of_good (M : SynMap) (hg : goodSynMap M = true)
    (x : Str) : normalize_term M (normalize_term M x) = normalize_term M x := by
  have hnt : ∀ t : Str, normalize_term M t = (lookupA M (canonStr t)).getD (canonStr t) := by
    intro t; rfl
  rw [hnt x]
  cases h : lookupA M (canonStr x) with
  | none =>
    simp only [Option.getD_none]
    rw [hnt (canonStr x), canonStr_idem, h, Option.getD_none]
  | some v =>
    simp only [Option.getD_some]
    have hmem : (canonStr x, v) ∈ M := lookupA_mem M _ v h
    have hall := List.all_eq_true.mp hg _ hmem
    simp only [Bool.and_eq_true, decide_eq_true_eq, Option.isNone_iff_eq_none] at hall
    rw [hnt v, hall.1, hall.2, Option.getD_none]

/-- C4: normalize is idempotent under the merged synonym map the program
loads (the built-in base table merged with the empty user table): for
every string x, normalizing twice equals normalizing once. -/
theorem normalize_term_idempotent (x : Str) :
    normalize_term mergedSynonyms (normalize_term mergedSynonyms x) =
      normalize_term mergedSynonyms x :=
  normalize_idem_of_good mergedSynonyms (by decide) x

/-- A concrete stand-in similarity function used by closed evaluations in
which no similarity comparison is reachable. -/
def zeroRatio : RatioFn := fun _ _ => 0

/-- A concrete similarity function that scores every pair 80. -/
def constRatio80 : RatioFn := fun _ _ => 80

/-- C1 counterexample: with an empty resume term set and empty resume
text no strategy succeeds (no similarity call is even reachable), and the
matcher returns the method string no, not none as the claim states. -/
theorem matcher_none_counterexample :
    any_exact_or_fuzzy_match mergedSynonyms zeroRatio "zzz".data [] [] 88 =
      (false, "no".data) ∧ "no".data ≠ "none".data :=
  ⟨by decide, by decide⟩

/-- C1 (amended): the matcher evaluates its strategies in strict
precedence order, short-circuiting on the first success: exact membership
of the canonicalized JD term, then synonym variants, then fuzzy
similarity against resume terms, then fuzzy similarity against tokens of
the lower-cased raw resume text; when no strategy succeeds it returns
matched = false with method = no. -/
theorem matcher_precedence (M : SynMap) (r : RatioFn) (term : Str)
    (rts : List Str) (text : Str) (thr : ℤ) (base : Str) (syns : List Str)
    (hbase : base = normalize_term M term)
    (hsyns : syns = expand_synonyms M base) :
    (base ∈ rts →
      any_exact_or_fuzzy_match M r term rts text thr = (true, "exact".data)) ∧
    (base ∉ rts → (∃ s ∈ syns, s ∈ rts) →
      any_exact_or_fuzzy_match M r term rts text thr = (true, "synonym".data)) ∧
    (base ∉ rts → ¬(∃ s ∈ syns, s ∈ rts) →
      (∃ rt ∈ rts, (thr : ℚ) ≤ r base rt ∨ ∃ s ∈ syns, (thr : ℚ) ≤ r s rt) →
      any_exact_or_fuzzy_match M r term rts text thr = (true, "fuzzy-terms".data)) ∧
    (base ∉ rts → ¬(∃ s ∈ syns, s ∈ rts) →
      ¬(∃ rt ∈ rts, (thr : ℚ) ≤ r base rt ∨ ∃ s ∈ syns, (thr : ℚ) ≤ r s rt) →
      (∃ tok ∈ tokensOfText text,
        (thr : ℚ) ≤ r base tok ∨ ∃ s ∈ syns, (thr : ℚ) ≤ r s tok) →
      any_exact_or_fuzzy_match M r term rts text thr = (true, "fuzzy-text".data)) ∧
    (base ∉ rts → ¬(∃ s ∈ syns, s ∈ rts) →
      ¬(∃ rt ∈ rts, (thr : ℚ) ≤ r base rt ∨ ∃ s ∈ syns, (thr : ℚ) ≤ r s rt) →
      ¬(∃ tok ∈ tokensOfText text,
        (thr : ℚ) ≤ r base tok ∨ ∃ s ∈ syns, (thr : ℚ) ≤ r s tok) →
      any_exact_or_fuzzy_match M r term rts text thr = (false, "no".data)) := by
  subst hbase
  subst hsyns
  refine ⟨?_, ?_, ?_, ?_, ?_⟩
  · intro h1
    simp only [any_exact_or_fuzzy_match]
    rw [if_pos h1]
  · intro h1 h2
    simp only [any_exact_or_fuzzy_match]
    rw [if_neg h1, if_pos h2]
  · intro h1 h2 h3
    simp only [any_exact_or_fuzzy_match]
    rw [if_neg h1, if_neg h2, if_pos h3]
  · intro h1 h2 h3 h4
    simp only [any_exact_or_fuzzy_match]
    rw [if_neg h1, if_neg h2, if_neg h3, if_pos h4]
  · intro h1 h2 h3 h4
    simp only [any_exact_or_fuzzy_match]
    rw [if_neg h1, if_neg h2, if_neg h3, if_neg h4]

/-- Witness for C1: the exact strategy fires first on a concrete input. -/
theorem matcher_precedence_witness :
    any_exact_or_fuzzy_match mergedSynonyms zeroRatio "qa".data
      ["qa".data] [] 88 = (true, "exact".data) :=
  (matcher_precedence mergedSynonyms zeroRatio "qa".data ["qa".data] [] 88
    _ _ rfl rfl).1 (by decide)

/-- C7: the fuzzy outcome of the matcher is antitone in the threshold:
a fuzzy match (fuzzy-terms or fuzzy-text) reported at a threshold is
still reported, as a fuzzy match, at any lower threshold.  The exact and
synonym strategies are threshold-independent, so raising a tier
threshold can only lose fuzzy matches. -/
theorem fuzzy_match_antitone (M : SynMap) (r : RatioFn) (term : Str)
    (rts : List Str) (text : Str) (t1 t2 : ℤ) (hle : t1 ≤ t2)
    (hf : (any_exact_or_fuzzy_match M r term rts text t2).2 = "fuzzy-terms".data ∨
          (any_exact_or_fuzzy_match M r term rts text t2).2 = "fuzzy-text".data) :
    (any_exact_or_fuzzy_match M r term rts text t1).1 = true ∧
    ((any_exact_or_fuzzy_match M r term rts text t1).2 = "fuzzy-terms".data ∨
     (any_exact_or_fuzzy_match M r term rts text t1).2 = "fuzzy-text".data) := by
  have hcast : ((t1 : ℚ)) ≤ (t2 : ℚ) := by exact_mod_cast hle
  simp only [any_exact_or_fuzzy_match] at hf ⊢
  by_cases h1 : normalize_term M term ∈ rts
  · rw [if_pos h1] at hf
    rcases hf with h | h <;> exact absurd h (by decide)
  rw [if_neg h1] at hf ⊢
  by_cases h2 : ∃ s ∈ expand_synonyms M (normalize_term M term), s ∈ rts
  · rw [if_pos h2] at hf
    rcases hf with h | h <;> exact absurd h (by decide)
  rw [if_neg h2] at hf ⊢
  have mono : ∀ cand : Str,
      ((t2 : ℚ) ≤ r (normalize_term M term) cand ∨
        ∃ s ∈ expand_synonyms M (normalize_term M term), (t2 : ℚ) ≤ r s cand) →
      ((t1 : ℚ) ≤ r (normalize_term M term) cand ∨
        ∃ s ∈ expand_synonyms M (normalize_term M term), (t1 : ℚ) ≤ r s cand) := by
    intro cand hc
    rcases hc with hc | ⟨s, hs, hc⟩
    · exact Or.inl (le_trans hcast hc)
    · exact Or.inr ⟨s, hs, le_trans hcast hc⟩
  by_cases h3 : ∃ rt ∈ rts, (t1 : ℚ) ≤ r (normalize_term M term) rt ∨
      ∃ s ∈ expand_synonyms M (normalize_term M term), (t1 : ℚ) ≤ r s rt
  · rw [if_pos h3]
    exact ⟨rfl, Or.inl rfl⟩
  · rw [if_neg h3]
    have h3t2 : ¬(∃ rt ∈ rts, (t2 : ℚ) ≤ r (normalize_term M term) rt ∨
        ∃ s ∈ expand_synonyms M (normalize_term M term), (t2 : ℚ) ≤ r s rt) := by
      intro hc
      rcases hc with ⟨rt, hrt, hc⟩
      exact h3 ⟨rt, hrt, mono rt hc⟩
    rw [if_neg h3t2] at hf
    by_cases h4t2 : ∃ tok ∈ tokensOfText text,
        (t2 : ℚ) ≤ r (normalize_term M term) tok ∨
        ∃ s ∈ expand_synonyms M (normalize_term M term), (t2 : ℚ) ≤ r s tok
    · have h4 : ∃ tok ∈ tokensOfText text,
          (t1 : ℚ) ≤ r (normalize_term M term) tok ∨
          ∃ s ∈ expand_synonyms M (normalize_term M term), (t1 : ℚ) ≤ r s tok := by
        rcases h4t2 with ⟨tok, htok, hc⟩
        exact ⟨tok, htok, mono tok hc⟩
      rw [if_pos h4]
      exact ⟨rfl, Or.inr rfl⟩
    · rw [if_neg h4t2] at hf
      rcases hf with h | h <;> exact absurd h (by decide)

/-- Witness for C7: a concrete fuzzy-terms match at threshold 79 is still
a fuzzy match at the lower threshold 76. -/
theorem fuzzy_match_antitone_witness :
    (any_exact_or_fuzzy_match mergedSynonyms constRatio80 "zz".data
        ["qq".data] [] 76).1 = true ∧
    ((any_exact_or_fuzzy_match mergedSynonyms constRatio80 "zz".data
        ["qq".data] [] 76).2 = "fuzzy-terms".data ∨
     (any_exact_or_fuzzy_match mergedSynonyms constRatio80 "zz".data
        ["qq".data] [] 76).2 = "fuzzy-text".data) :=
  fuzzy_match_antitone mergedSynonyms constRatio80 "zz".data ["qq".data] []
    76 79 (by decide) (Or.inl (by decide))

/-- C5 counterexample: on the term business (canonical, ending in a
double s) the code yields the variant busine, because rstrip removes all
trailing s characters, while the claimed one-s toggle busines is absent. -/
theorem expand_rstrip_counterexample :
    "busine".data ∈ expand_synonyms mergedSynonyms "business".data ∧
    "busines".data ∉ expand_synonyms mergedSynonyms "business".data :=
  ⟨by decide, by decide⟩

/-- C5 (amended): expand returns exactly the set containing the canonical
form, every variant key of the map whose mapped canonical equals it, and
the naive plural or singular toggle of the canonical form, where the
toggle appends s when the canonical does not end in s and otherwise
strips all trailing s characters (Python rstrip), each element
re-normalized; expand is a pure function of the map and never mutates it. -/
theorem expand_synonyms_members (M : SynMap) (term x : Str) :
    x ∈ expand_synonyms M term ↔
      ∃ v, (v = normalize_term M term ∨
            (v, normalize_term M term) ∈ M ∨
            v = (if lastIsS (normalize_term M term) then
                   rstripS (normalize_term M term)
                 else normalize_term M term ++ ['s'])) ∧
           x = normalize_term M v := by
  simp only [expand_synonyms]
  constructor
  · intro hx
    rcases List.mem_map.mp hx with ⟨v, hv, rfl⟩
    refine ⟨v, ?_, rfl⟩
    rcases List.mem_append.mp hv with hv | hv
    · rcases List.mem_cons.mp hv with hv | hv
      · exact Or.inl hv
      · rcases List.mem_map.mp hv with ⟨kv, hkv, rfl⟩
        rcases List.mem_filter.mp hkv with ⟨hmem, hcond⟩
        have hkv2 : kv.2 = normalize_term M term := by simpa using hcond
        refine Or.inr (Or.inl ?_)
        rw [← hkv2]
        simpa using hmem
    · exact Or.inr (Or.inr (List.mem_singleton.mp hv))
  · rintro ⟨v, hv, rfl⟩
    refine List.mem_map.mpr ⟨v, ?_, rfl⟩
    rcases hv with rfl | hv | rfl
    · exact List.mem_append.mpr (Or.inl (List.mem_cons_self _ _))
    · refine List.mem_append.mpr (Or.inl (List.mem_cons.mpr (Or.inr ?_)))
      exact List.mem_map.mpr
        ⟨(v, normalize_term M term), List.mem_filter.mpr ⟨hv, by simp⟩, rfl⟩
    · exact List.mem_append.mpr (Or.inr (List.mem_singleton.mpr rfl))

/-- C6: over duplicate-free canonicalized term lists (TermSets), the
simple score counts only the exact set intersection, no synonym or fuzzy
credit: it equals the intersection cardinality over the JD cardinality
times 100, rounded to 2 decimals, and 0 when the JD TermSet is empty. -/
theorem simple_score_intersection (jd resume : List Str) (hnd : jd.Nodup) :
    simple_score jd resume =
      if jd = [] then 0
      else round2 (((jd.toFinset ∩ resume.toFinset).card : ℚ) /
        ((jd.toFinset.card : ℚ)) * 100) := by
  by_cases hjd : jd = []
  · subst hjd
    simp [simple_score]
  · have hje : jd.isEmpty = false := by
      cases jd with
      | nil => exact absurd rfl hjd
      | cons a l => rfl
    have hcard : jd.toFinset.card = jd.length := List.toFinset_card_of_nodup hnd
    have hfn : (jd.filter (fun t => t ∈ resume)).Nodup := hnd.filter _
    have hflen : (jd.filter (fun t => t ∈ resume)).toFinset.card =
        (jd.filter (fun t => t ∈ resume)).length := List.toFinset_card_of_nodup hfn
    have hfset : (jd.filter (fun t => t ∈ resume)).toFinset =
        jd.toFinset ∩ resume.toFinset := by
      ext a
      simp [List.mem_filter]
    simp only [simple_score, hje, Bool.false_eq_true, if_neg, if_false, hjd]
    rw [← hfset, hflen, hcard]

/-- Witness for C6 on a concrete pair of TermSets. -/
theorem simple_score_intersection_witness :
    (["qa".data, "sql".data] : List Str).Nodup ∧
    simple_score ["qa".data, "sql".data] ["qa".data, "database".data] =
      (if (["qa".data, "sql".data] : List Str) = [] then 0
       else round2 ((((["qa".data, "sql".data] : List Str).toFinset ∩
           (["qa".data, "database".data] : List Str).toFinset).card : ℚ) /
         (((["qa".data, "sql".data] : List Str).toFinset.card : ℚ)) * 100)) :=
  ⟨by decide, simple_score_intersection _ _ (by decide)⟩

/-- The breakdown rows are the per-term rows in JD order. -/
theorem score_rows_items (M : SynMap) (cfg : ScoringConfig) (r : RatioFn)
    (resume : List Str) (text : Str) (jd : List Str) :
    (score_rows M cfg r resume text jd).1 =
      jd.map (fun t => (score_row M cfg r resume text t).1) := by
  induction jd with
  | nil => rfl
  | cons t rest ih => simp [score_rows, ih]

/-- total_possible accumulates the tier weight of every JD term. -/
theorem score_rows_total_possible (M : SynMap) (cfg : ScoringConfig)
    (r : RatioFn) (resume : List Str) (text : Str) (jd : List Str) :
    (score_rows M cfg r resume text jd).2.1 =
      (jd.map (fun t => cfg.weightOf (categorize_term M t))).sum := by
  induction jd with
  | nil => rfl
  | cons t rest ih => simp [score_rows, score_row, ih]

/-- total_earned accumulates the weight of every matched JD term. -/
theorem score_rows_total_earned (M : SynMap) (cfg : ScoringConfig)
    (r : RatioFn) (resume : List Str) (text : Str) (jd : List Str) :
    (score_rows M cfg r resume text jd).2.2 =
      (jd.map (fun t =>
        if (any_exact_or_fuzzy_match M r t resume text
              (cfg.thresholdOf (categorize_term M t))).1 then
          cfg.weightOf (categorize_term M t)
        else 0)).sum := by
  induction jd with
  | nil => rfl
  | cons t rest ih => simp [score_rows, score_row, ih]

/-- Every tier weight of the built-in configuration is positive. -/
theorem builtin_weight_pos (c : Tier) :
    (0 : ℚ) < builtinScoringConfig.weightOf c := by
  cases c <;> norm_num [ScoringConfig.weightOf, builtinScoringConfig]

/-- Under the built-in configuration total_possible is nonnegative. -/
theorem score_rows_tp_nonneg (M : SynMap) (r : RatioFn)
    (resume : List Str) (text : Str) (jd : List Str) :
    0 ≤ (score_rows M builtinScoringConfig r resume text jd).2.1 := by
  induction jd with
  | nil => simp [score_rows]
  | cons t rest ih =>
    simp only [score_rows, score_row]
    have := builtin_weight_pos (categorize_term M t)
    linarith

/-- Under the built-in configuration total_possible is positive whenever
the JD TermSet is non-empty. -/
theorem score_rows_tp_pos (M : SynMap) (r : RatioFn)
    (resume : List Str) (text : Str) (t : Str) (rest : List Str) :
    0 < (score_rows M builtinScoringConfig r resume text (t :: rest)).2.1 := by
  simp only [score_rows, score_row]
  have h1 := builtin_weight_pos (categorize_term M t)
  have h2 := score_rows_tp_nonneg M r resume text rest
  linarith

/-- C2: the weighted score equals total_earned over total_possible times
100, rounded to 2 decimals, where total_possible sums the tier weight of
every JD term and total_earned sums the weight of every matched JD term
(0 for unmatched); under the built-in weights total_possible is 0 exactly
when the JD TermSet is empty, and then the weighted score is 0. -/
theorem weighted_score_formula (M : SynMap) (r : RatioFn)
    (jd resume : List Str) (text : Str) :
    (score_weighted M builtinScoringConfig r jd resume text).2.2.1 =
      (jd.map (fun t => builtinScoringConfig.weightOf (categorize_term M t))).sum ∧
    (score_weighted M builtinScoringConfig r jd resume text).2.2.2 =
      (jd.map (fun t =>
        if (any_exact_or_fuzzy_match M r t resume text
              (builtinScoringConfig.thresholdOf (categorize_term M t))).1 then
          builtinScoringConfig.weightOf (categorize_term M t)
        else 0)).sum ∧
    ((score_weighted M builtinScoringConfig r jd resume text).2.2.1 = 0 ↔ jd = []) ∧
    (score_weighted M builtinScoringConfig r jd resume text).1 =
      (if jd = [] then 0
       else round2 ((score_weighted M builtinScoringConfig r jd resume text).2.2.2 /
         (score_weighted M builtinScoringConfig r jd resume text).2.2.1 * 100)) := by
  refine ⟨?_, ?_, ?_, ?_⟩
  · simpa only [score_weighted] using
      score_rows_total_possible M builtinScoringConfig r resume text jd
  · simpa only [score_weighted] using
      score_rows_total_earned M builtinScoringConfig r resume text jd
  · constructor
    · intro h0
      cases jd with
      | nil => rfl
      | cons t rest =>
        have := score_rows_tp_pos M r resume text t rest
        simp only [score_weighted] at h0
        rw [h0] at this
        exact absurd this (lt_irrefl 0)
    · intro h
      subst h
      rfl
  · cases jd with
    | nil => rfl
    | cons t rest =>
      have hpos := score_rows_tp_pos M r resume text t rest
      simp only [score_weighted, if_pos hpos]
      rw [if_neg (List.cons_ne_nil t rest)]

/-- The matcher method string is one of the five raw strings. -/
theorem matcher_method_cases (M : SynMap) (r : RatioFn) (term : Str)
    (rts : List Str) (text : Str) (thr : ℤ) :
    (any_exact_or_fuzzy_match M r term rts text thr).2 = "exact".data ∨
    (any_exact_or_fuzzy_match M r term rts text thr).2 = "synonym".data ∨
    (any_exact_or_fuzzy_match M r term rts text thr).2 = "fuzzy-terms".data ∨
    (any_exact_or_fuzzy_match M r term rts text thr).2 = "fuzzy-text".data ∨
    (any_exact_or_fuzzy_match M r term rts text thr).2 = "no".data := by
  simp only [any_exact_or_fuzzy_match]
  split_ifs <;> simp

/-- C10: in every breakdown row the Method field is the raw method string
returned by the matcher, including the string no for unmatched terms; the
dash placeholder branch is unreachable, because the boolean matched flag
(never the method string) is compared against the string no, and in
Python a bool never equals a str. -/
theorem breakdown_method_raw (M : SynMap) (cfg : ScoringConfig)
    (r : RatioFn) (jd resume : List Str) (text : Str) :
    ∀ it ∈ (score_weighted M cfg r jd resume text).2.1,
      it.method = (any_exact_or_fuzzy_match M r it.term resume text
          (cfg.thresholdOf (categorize_term M it.term))).2 ∧
      it.method ≠ "-".data := by
  intro it hit
  simp only [score_weighted] at hit
  rw [score_rows_items] at hit
  rcases List.mem_map.mp hit with ⟨t, htl, rfl⟩
  refine ⟨?_, ?_⟩
  · simp [score_row, pyBoolEqStr]
  · have hm := matcher_method_cases M r t resume text
      (cfg.thresholdOf (categorize_term M t))
    simp only [score_row, pyBoolEqStr, Bool.false_eq_true, if_false]
    rcases hm with h | h | h | h | h <;> rw [h] <;> decide

/-- Witness for C10 on a concrete analysis with one JD term. -/
theorem breakdown_method_raw_witness :
    ((score_row mergedSynonyms builtinScoringConfig zeroRatio
        ["qa".data] [] "qa".data).1).method =
      (any_exact_or_fuzzy_match mergedSynonyms zeroRatio
        ((score_row mergedSynonyms builtinScoringConfig zeroRatio
          ["qa".data] [] "qa".data).1).term ["qa".data] []
        (builtinScoringConfig.thresholdOf (categorize_term mergedSynonyms
          ((score_row mergedSynonyms builtinScoringConfig zeroRatio
            ["qa".data] [] "qa".data).1).term))).2 ∧
    ((score_row mergedSynonyms builtinScoringConfig zeroRatio
        ["qa".data] [] "qa".data).1).method ≠ "-".data :=
  breakdown_method_raw mergedSynonyms builtinScoringConfig zeroRatio
    ["qa".data] ["qa".data] [] _ (List.mem_cons_self _ _)

/-- C9: for every synonym table, stopword list, stop-phrase list,
annotator and input text, the extracted TermSet contains no empty string:
the final normalization pass drops empty results silently instead of
inserting them. -/
theorem extract_terms_nonempty (M : SynMap) (stopW stopP : List Str)
    (annotate : Str → NlpDoc) (text : Str) :
    ∀ t ∈ extract_terms M stopW stopP annotate text, t ≠ [] := by
  intro t ht
  simp only [extract_terms, List.mem_filterMap] at ht
  obtain ⟨a, ha, hsome⟩ := ht
  split at hsome
  · exact absurd hsome (by simp)
  · next hcond =>
    obtain rfl := Option.some.inj hsome
    intro hnil
    apply hcond
    left
    simp [hnil]

/-- A concrete annotator producing one noun token, used by the witness. -/
def qaAnnotator : Str → NlpDoc :=
  fun _ => ⟨[⟨"qa".data, "qa".data, "NOUN".data, [], false, false, false⟩], []⟩

/-- Witness for C9: a concrete extraction containing the term qa, which
is indeed non-empty. -/
theorem extract_terms_nonempty_witness :
    "qa".data ∈ extract_terms mergedSynonyms [] [] qaAnnotator "qa".data ∧
    "qa".data ≠ ([] : Str) :=
  ⟨by decide,
   extract_terms_nonempty mergedSynonyms [] [] qaAnnotator "qa".data _ (by decide)⟩

/-- Attribute get on a loaded mapping never raises and returns the looked
up entry or the default. -/
theorem pyGet_dict (entries : List (Str × YVal)) (k : Str) (d : YVal) :
    pyGet (.dict entries) k d = .ok ((lookupA entries k).getD d) := rfl

/-- C8 counterexample: a weights field that is present but malformed (the
string abc) is not replaced by the built-in default 3.0; float() raises
ValueError and the error propagates out of get_scoring_config, failing
the analysis. -/
theorem scoring_config_malformed_error :
    get_scoring_config (.dict [("weights".data,
        .dict [("critical".data, .str "abc".data)])]) =
      .error "ValueError".data := rfl

/-- C8 (amended): when a weights or thresholds field is absent,
get_scoring_config substitutes the built-in default for that field
(weights 3.0 / 2.0 / 1.0, thresholds 88 / 82 / 75) and the configuration
resolves; every present field is passed through float() or int(), whose
success is required — a present but non-numeric field raises and the
error propagates as a failure of the analysis (an unreadable file is
instead replaced wholesale by the built-in configuration at load time by
_safe_read_yaml). -/
theorem scoring_config_defaults (w t : List (Str × YVal))
    (wc wi wn : ℚ) (tc ti tn : ℤ)
    (h1 : pyFloat ((lookupA w "critical".data).getD (.num 3)) = .ok wc)
    (h2 : pyFloat ((lookupA w "important".data).getD (.num 2)) = .ok wi)
    (h3 : pyFloat ((lookupA w "nice".data).getD (.num 1)) = .ok wn)
    (h4 : pyInt ((lookupA t "critical".data).getD (.num 88)) = .ok tc)
    (h5 : pyInt ((lookupA t "important".data).getD (.num 82)) = .ok ti)
    (h6 : pyInt ((lookupA t "nice".data).getD (.num 75)) = .ok tn) :
    get_scoring_config (.dict [("weights".data, .dict w),
        ("thresholds".data, .dict t)]) =
      .ok ⟨wc, wi, wn, tc, ti, tn⟩ := by
  have hw : pyGet (YVal.dict [("weights".data, YVal.dict w),
      ("thresholds".data, YVal.dict t)]) "weights".data (YVal.dict []) =
      Except.ok (YVal.dict w) := rfl
  have hts : pyGet (YVal.dict [("weights".data, YVal.dict w),
      ("thresholds".data, YVal.dict t)]) "thresholds".data (YVal.dict []) =
      Except.ok (YVal.dict t) := rfl
  simp only [get_scoring_config, hw, hts, pyGet_dict, Except.bind,
    h1, h2, h3, h4, h5, h6]

/-- Witness for C8: the empty weights and thresholds mappings resolve to
the built-in configuration. -/
theorem scoring_config_defaults_witness :
    pyFloat ((lookupA ([] : List (Str × YVal)) "critical".data).getD (.num 3)) =
      .ok 3 ∧
    get_scoring_config (.dict [("weights".data, .dict []),
        ("thresholds".data, .dict [])]) = .ok builtinScoringConfig :=
  ⟨rfl, scoring_config_defaults [] [] 3 2 1 88 82 75 rfl rfl rfl rfl rfl rfl⟩

/-- A concrete annotator reflecting how the external pipeline annotates
the lower-cased one-word document it: a pronoun stopword token, no noun
chunks. -/
def pronounAnnotator : Str → NlpDoc :=
  fun _ => ⟨[⟨"it".data, "it".data, "PRON".data, [], false, false, true⟩], []⟩

/-- C3 evaluated at the failing input: the document IT consists of one
token of 2 uppercase letters, yet extraction returns the empty TermSet.
extract_terms lower-cases the whole text before annotating it, so the
tokens the acronym test sees are tokens of the lower-cased text: the
uppercase-only pattern can never match (isAcro holds of IT but not of
the lowered it), and the token falls through to the stopword- and
POS-filtered paths, which drop it. -/
theorem acronym_claim_failing_input :
    extract_terms mergedSynonyms ["it".data] builtinStopPhrases
        pronounAnnotator "IT".data = [] ∧
    pyLower "IT".data = "it".data ∧
    isAcro "IT".data = true ∧
    isAcro "it".data = false :=
  ⟨by decide, by decide, by decide, by decide⟩
